import Mathlib

/-!
Verification of the concurrent core of a small RESP2 key/value server
written in Go.  The Lean definitions below are shallow embeddings of the
Go source: each definition carries the name of the function it embeds.
Machine integers are modelled as `Int`/`Nat` (no operation in scope
approaches the `int64` range), Go slices as `List`, Go channels as fresh
`Nat` identifiers together with an explicit log of the values sent on
them, and clock instants as `Nat`.
-/

set_option autoImplicit false

namespace RedisGo

/-! ## Go `strconv.Atoi`

Model of Go's `strconv.Atoi`: an optional leading `+` or `-` sign
followed by at least one decimal digit.  (The `int64` overflow check is
omitted; no claim involves counts near `2^63`.) -/

/-- Decimal value of one ASCII digit, `none` on a non-digit. -/
def digitVal (c : Char) : Option Nat :=
  if '0' ≤ c ∧ c ≤ '9' then some (c.toNat - '0'.toNat) else none

/-- Value of a nonempty all-digit string, `none` otherwise. -/
def decDigits : List Char → Option Nat
  | [] => none
  | [c] => digitVal c
  | c :: cs =>
    match digitVal c, decDigits cs with
    | some d, some r => some (d * 10 ^ cs.length + r)
    | _, _ => none

/-- Go `strconv.Atoi`: optional sign, then decimal digits. -/
def goAtoi (s : String) : Option Int :=
  match s.data with
  | '+' :: rest => (decDigits rest).map (fun n => (n : Int))
  | '-' :: rest => (decDigits rest).map (fun n => -(n : Int))
  | l => (decDigits l).map (fun n => (n : Int))

/-- Go `strings.HasPrefix` (also the meaning of `line[0] != c` after the
emptiness check): byte-level prefix test. -/
def hasPrefixGo (s pre : String) : Bool :=
  pre.data.isPrefixOf s.data

/-! ## The concurrent deque (`concurrent/concurrentdeque.go`)

`ConcurrentDeque[T]` holds a ring buffer `buf` (a Go slice, modelled as a
list whose length is the capacity), `head`, `tail`, `count`, and a FIFO
`waiters` list of channels.  A waiter channel is modelled by a fresh
natural-number identity drawn from the ghost counter `nextWaiter`; a send
on a channel is recorded in the operation's result rather than mutating
shared state.  All mutating operations run under the deque's exclusive
lock in Go, so they are modelled as sequential state transformers.

Go index arithmetic `x & mask` with `mask = len(buf) - 1` equals
`x % len(buf)` whenever `len(buf)` is a power of two (which the code
maintains); `(head - 1) & mask` on two's-complement ints equals
`(head + len(buf) - 1) % len(buf)` for `0 ≤ head < len(buf)`.  The model
uses the `%` forms. -/

structure Deque (α : Type) where
  buf : List α
  head : Nat
  tail : Nat
  count : Nat
  waiters : List Nat
  nextWaiter : Nat
deriving DecidableEq

namespace Deque

/-- `NewConcurrentDeque`: 16-slot zeroed buffer, empty waiter queue. -/
def NewConcurrentDeque {α : Type} [Inhabited α] : Deque α :=
  ⟨List.replicate 16 default, 0, 0, 0, [], 0⟩

/-- The doubling loop of `resizeIfNecessaryNoLock`:
`for newSize < targetCount { newSize <<= 1 }`. -/
def growSize (n target : Nat) : Nat :=
  if n = 0 then 0
  else if target ≤ n then n
  else growSize (2 * n) target
termination_by target - n
decreasing_by simp_all; omega

/-- `resizeIfNecessaryNoLock`: grow the buffer by doubling until
`targetCount` fits, re-linearizing the live elements to the front
(`head = 0`, `tail = count`). -/
def resizeIfNecessaryNoLock {α : Type} [Inhabited α] (targetCount : Nat)
    (q : Deque α) : Deque α :=
  if targetCount ≤ q.buf.length then q
  else
    let newSize := growSize (max q.buf.length 1) targetCount
    let newBuf := (List.range q.count).foldl
      (fun b i => b.set i (q.buf.getD ((q.head + i) % q.buf.length) default))
      (List.replicate newSize default)
    { q with buf := newBuf, head := 0, tail := q.count }

/-- The insertion loop of `PushBack`: store each value at `tail`,
advance `tail` modulo the capacity, bump `count`. -/
def pushLoopBack {α : Type} : List α → Deque α → Deque α
  | [], q => q
  | v :: vs, q =>
    pushLoopBack vs
      { q with buf := q.buf.set q.tail v,
               tail := (q.tail + 1) % q.buf.length,
               count := q.count + 1 }

/-- The insertion loop of `PushFront`: step `head` back modulo the
capacity, store the value there, bump `count`. -/
def pushLoopFront {α : Type} : List α → Deque α → Deque α
  | [], q => q
  | v :: vs, q =>
    pushLoopFront vs
      { q with buf := (q.buf.set ((q.head + q.buf.length - 1) % q.buf.length) v),
               head := (q.head + q.buf.length - 1) % q.buf.length,
               count := q.count + 1 }

/-- `notifyAwaiters`: while both the waiter queue and the value slice are
nonempty, send the one-element slice `values[0:1]` to the front waiter,
remove that waiter, and drop the value.  Returns the handoff log (which
waiter was sent which slice) and the remaining waiter queue. -/
def notifyAwaiters {α : Type} : List α → List Nat → List (Nat × List α) × List Nat
  | _, [] => ([], [])
  | [], ws => ([], ws)
  | v :: vs, w :: ws =>
    let r := notifyAwaiters vs ws
    ((w, [v]) :: r.1, r.2)

/-- `PushBack(values...)`: resize for `count + len(values)`, insert every
value at the tail, then (in the deferred `notifyAwaiters` call, still
under the lock) hand slices of the same `values` to pending waiters.
Returns the new `count` (read before the deferred call, which does not
change it), the new state, and the handoff log. -/
def PushBack {α : Type} [Inhabited α] (values : List α) (q : Deque α) :
    Nat × Deque α × List (Nat × List α) :=
  let q1 := resizeIfNecessaryNoLock (q.count + values.length) q
  let q2 := pushLoopBack values q1
  let hw := notifyAwaiters values q2.waiters
  (q2.count, { q2 with waiters := hw.2 }, hw.1)

/-- `PushFront(values...)`: like `PushBack` but inserting at the head. -/
def PushFront {α : Type} [Inhabited α] (values : List α) (q : Deque α) :
    Nat × Deque α × List (Nat × List α) :=
  let q1 := resizeIfNecessaryNoLock (q.count + values.length) q
  let q2 := pushLoopFront values q1
  let hw := notifyAwaiters values q2.waiters
  (q2.count, { q2 with waiters := hw.2 }, hw.1)

/-- The loop of `popFrontNoLock`: take `buf[head]`, zero the slot
(`*new(T)`, the Go zero value, modelled by `default`), advance `head`,
decrement `count`. -/
def popLoop {α : Type} [Inhabited α] : Nat → Deque α → List α × Deque α
  | 0, q => ([], q)
  | n + 1, q =>
    let v := q.buf.getD q.head default
    let q' := { q with buf := q.buf.set q.head default,
                       head := (q.head + 1) % q.buf.length,
                       count := q.count - 1 }
    let r := popLoop n q'
    (v :: r.1, r.2)

/-- `popFrontNoLock(n)`: clamp `n` to `[0, count]`, then pop that many
elements from the head. -/
def popFrontNoLock {α : Type} [Inhabited α] (n : Int) (q : Deque α) :
    List α × Deque α :=
  popLoop (max 0 (min n (q.count : Int))).toNat q

/-- `PopFront(n)`: `popFrontNoLock` under the exclusive lock. -/
def PopFront {α : Type} [Inhabited α] (n : Int) (q : Deque α) :
    List α × Deque α :=
  popFrontNoLock n q

/-- Result of `PopFrontAsync`: either a value delivered on the channel
immediately, or the identity of the newly enqueued waiter channel. -/
inductive PopAsyncResult (α : Type) where
  | immediate (vals : List α)
  | enqueued (waiter : Nat)
deriving DecidableEq

/-- `PopFrontAsync(timeout)`: if `count > 0`, pop one element and deliver
it on the fresh channel at once; otherwise append a fresh waiter channel
to the FIFO queue.  NOTE (faithful to the source): the `timeout`
parameter is accepted but never read by the Go function body — no
deadline is armed and no expiry path exists. -/
def PopFrontAsync {α : Type} [Inhabited α] (timeout : Int) (q : Deque α) :
    Deque α × PopAsyncResult α :=
  if 0 < q.count then
    let r := popFrontNoLock 1 q
    (r.2, .immediate r.1)
  else
    ({ q with waiters := q.waiters ++ [q.nextWaiter],
              nextWaiter := q.nextWaiter + 1 },
     .enqueued q.nextWaiter)

/-- `GetRange(startIndex, stopIndex)`: `none` models the Go `nil` slice
returned when `count == 0`; `some []` models the non-nil empty slice
returned on an inverted range.  Negative indices are resolved by adding
`count`, then clamped to `[0, count-1]`. -/
def GetRange {α : Type} [Inhabited α] (startIndex stopIndex : Int)
    (q : Deque α) : Option (List α) :=
  if q.count = 0 then none
  else
    let s0 := if startIndex < 0 then (q.count : Int) + startIndex else startIndex
    let t0 := if stopIndex < 0 then (q.count : Int) + stopIndex else stopIndex
    let s1 := max 0 s0
    let t1 := min ((q.count : Int) - 1) t0
    if t1 < s1 then some []
    else
      let n := (t1 - s1 + 1).toNat
      some ((List.range n).map
        (fun i => q.buf.getD ((q.head + s1.toNat + i) % q.buf.length) default))

/-- `Len()`: shared-lock read of `count`. -/
def Len {α : Type} (q : Deque α) : Nat := q.count

end Deque

/-- The ring-buffer part of the deque invariant: the capacity is a power
of two of at least 16, `count ≤ capacity`, `head` is in range, and
`tail == (head + count) mod capacity`. -/
def DequeInv {α : Type} (q : Deque α) : Prop :=
  (∃ k, q.buf.length = 2 ^ k) ∧ 16 ≤ q.buf.length ∧
  q.count ≤ q.buf.length ∧ q.head < q.buf.length ∧
  q.tail = (q.head + q.count) % q.buf.length

/-- One call on the deque's ring-buffer interface. -/
inductive RingOp (α : Type) where
  | pushBack (vs : List α)
  | pushFront (vs : List α)
  | popFront (n : Int)

/-- State reached after one ring-buffer operation (return values and
handoff logs discarded). -/
def applyRingOp {α : Type} [Inhabited α] : RingOp α → Deque α → Deque α
  | .pushBack vs, q => (Deque.PushBack vs q).2.1
  | .pushFront vs, q => (Deque.PushFront vs q).2.1
  | .popFront n, q => (Deque.PopFront n q).2

/-- State reached after a sequence of ring-buffer operations. -/
def runRingOps {α : Type} [Inhabited α] (ops : List (RingOp α))
    (q : Deque α) : Deque α :=
  ops.foldl (fun q op => applyRingOp op q) q

/-! ## The concurrent map with TTL (`ConcurrentMap` in `concurrent`)

`mapEntry[Value]` holds the data, an optional `*time.Timer` handle and an
`expiresAt` instant.  Timer handles are compared by pointer identity in
Go (`current.timer == newEntry.timer`); the model gives each timer
created by `Set` a fresh identity from the ghost counter `nextTimer`.
The Go zero `time.Time` (`IsZero`) is modelled as `none`; instants are
`Nat` and `time.Now().After(t)` is strict `t < now`.  The deferred
`time.AfterFunc` body is modelled as the separate transition
`fireTimer`, which an adversarial scheduler may run at any point after
the `Set` that created the timer. -/

structure MapEntry (V : Type) where
  data : V
  timer : Option Nat
  expiresAt : Option Nat
deriving DecidableEq

structure CMap (K V : Type) where
  entries : K → Option (MapEntry V)
  nextTimer : Nat

namespace CMap

variable {K V : Type} [DecidableEq K]

/-- `NewConcurrentMap`: empty entry table. -/
def NewConcurrentMap (K V : Type) : CMap K V := ⟨fun _ => none, 0⟩

/-- Passive-expiry test used by `Get` and `GetOrCreate`:
`!entry.expiresAt.IsZero() && time.Now().After(entry.expiresAt)`. -/
def entryExpired (e : MapEntry V) (now : Nat) : Bool :=
  match e.expiresAt with
  | none => false
  | some t => decide (t < now)

/-- `Get(key)`: under the shared lock, fetch the entry; report absence if
it has an expiry in the past (passive expiration, no mutation). -/
def Get (m : CMap K V) (key : K) (now : Nat) : Option V :=
  match m.entries key with
  | none => none
  | some e => if entryExpired e now then none else some e.data

/-- `Set(key, value, expiryDuration)`: stop the previous entry's timer
(modelled implicitly: a stopped timer's `fireTimer` is already harmless
by the identity check), write the new entry, and when `expiryDuration >
0` register a fresh timer identity with `expiresAt = now + ttl`. -/
def Set (m : CMap K V) (key : K) (value : V) (ttl : Nat) (now : Nat) :
    CMap K V :=
  if 0 < ttl then
    { entries := fun k =>
        if k = key then some ⟨value, some m.nextTimer, some (now + ttl)⟩
        else m.entries k,
      nextTimer := m.nextTimer + 1 }
  else
    { m with entries := fun k =>
        if k = key then some ⟨value, none, none⟩ else m.entries k }

/-- The deferred `time.AfterFunc` body registered by `Set`: reacquire the
exclusive lock and delete the entry only if its still-registered timer
is the very timer `tid` that is firing. -/
def fireTimer (m : CMap K V) (key : K) (tid : Nat) : CMap K V :=
  match m.entries key with
  | none => m
  | some e =>
    if e.timer = some tid then
      { m with entries := fun k => if k = key then none else m.entries k }
    else m

/-- `Delete(key)`: stop the timer if any and remove the entry. -/
def Delete (m : CMap K V) (key : K) : CMap K V :=
  match m.entries key with
  | none => m
  | some _ => { m with entries := fun k => if k = key then none else m.entries k }

/-- `GetOrCreate(key, newFunc)`: fast path through `Get` under the shared
lock; on a miss, take the exclusive lock and re-check (double-checked);
if an unexpired entry now exists return it, else install `newFunc()`
with no expiry.  `now1` is the instant of the fast-path `time.Now()`,
`now2` that of the re-check; the returned `Bool` counts factory
invocations (`false` = zero calls, `true` = exactly one call). -/
def GetOrCreate (m : CMap K V) (key : K) (newFunc : Unit → V)
    (now1 now2 : Nat) : V × CMap K V × Bool :=
  match Get m key now1 with
  | some data => (data, m, false)
  | none =>
    match m.entries key with
    | some e =>
      if entryExpired e now2 then
        let newValue := newFunc ()
        (newValue,
         { m with entries := fun k =>
             if k = key then some ⟨newValue, none, none⟩ else m.entries k },
         true)
      else (e.data, m, false)
    | none =>
      let newValue := newFunc ()
      (newValue,
       { m with entries := fun k =>
           if k = key then some ⟨newValue, none, none⟩ else m.entries k },
       true)

end CMap

/-! ## RESP2 serializer (`resplib`) -/

/-- `SerializeRespArray(arr)`: `nil` (here `none`) serializes to the nil
array `*-1\r\n`; otherwise a count line followed by each element as a
bulk string.  Lengths are byte lengths (`String.utf8ByteSize`). -/
def SerializeRespArray : Option (List String) → String
  | none => "*-1\r\n"
  | some arr =>
    "*" ++ toString arr.length ++ "\r\n" ++
    String.join (arr.map (fun s =>
      "$" ++ toString s.utf8ByteSize ++ "\r\n" ++ s ++ "\r\n"))

/-! ## RESP2 parser and per-connection loop (`tcpserver.go`)

`ParseArray` reads CRLF-split lines from the scanner channel; the
channel is modelled as the list of lines still to arrive, `[]` meaning
the channel was closed.  `HandleError(msg, true)` sends exactly one
reply `"-ERRTERM " ++ msg ++ "\r\n"` on the connection's response
channel and sets the `err` flag that makes `ReadWorker` return; the
model returns the message as the second component (`none` = no
`HandleError` call; the Go code calls it at most once per `ParseArray`
invocation, always with `terminate = true`). -/

/-- The `for range arrSize` loop of `ParseArray`: read a `$`-prefixed
length line and the following data line for each element. -/
def parseBulks : Nat → List String → List String →
    Option (List String) × Option String
  | 0, _, acc => (some acc, none)
  | _ + 1, [], _ => (none, some "Channel closed while parsing array element")
  | n + 1, line :: rest, acc =>
    if line = "" then
      (none, some "Unexpected empty line while parsing array element")
    else if ¬ hasPrefixGo line "$" then
      (none, some "Expected bulk string marker")
    else
      match goAtoi (line.drop 1) with
      | none => (none, some "Invalid bulk string length")
      | some bulkLen =>
        if bulkLen < 0 then
          (none, some "Bulk string length cannot be negative")
        else
          match rest with
          | [] => (none, some "Channel closed while reading bulk string data")
          | data :: rest2 =>
            if (data.utf8ByteSize : Int) ≠ bulkLen then
              (none, some "Bulk string length mismatch")
            else parseBulks n rest2 (acc ++ [data])

/-- `ParseArray(scan, handleError)`: closed channel or an empty line
return `nil` silently; a line not starting with `*`, an unparsable
count, or a negative count raise a fatal (`terminate = true`) protocol
error; otherwise read `arrSize` bulk strings. -/
def ParseArray (input : List String) : Option (List String) × Option String :=
  match input with
  | [] => (none, none)
  | line :: rest =>
    if line = "" then (none, none)
    else if ¬ hasPrefixGo line "*" then
      (none, some "ParseArray called on non-array!")
    else
      match goAtoi (line.drop 1) with
      | none => (none, some "Could not extract array size!")
      | some arrSize =>
        if arrSize < 0 then (none, some "Array size cannot be negative")
        else parseBulks arrSize.toNat rest []

/-- Outcome of one `ReadWorker` loop iteration for a connection. -/
inductive ConnOutcome where
  | terminated (reply : String)
  | cleanExit
  | dispatched (cmd : List String)
deriving DecidableEq

/-- One iteration of the `ReadWorker` loop: on a `HandleError` call the
`-ERRTERM`-prefixed reply was sent and the worker returns; on an empty
parse result the worker exits cleanly (client disconnected); otherwise
the command array is dispatched through `ExecuteCommand`. -/
def ReadWorkerStep (input : List String) : ConnOutcome :=
  match ParseArray input with
  | (_, some msg) => .terminated ("-ERRTERM " ++ msg ++ "\r\n")
  | (none, none) => .cleanExit
  | (some [], none) => .cleanExit
  | (some cmd, none) => .dispatched cmd

/-- `WriteWorker` closes the connection after writing a reply exactly
when the reply carries the terminate marker `-ERRTERM`. -/
def writerTerminates (reply : String) : Bool :=
  hasPrefixGo reply "-ERRTERM"

/-! ## Command registry and dispatch (`respcommands/commands.go`) -/

/-- Keys of `resp2_Commands_Map`. -/
def commandNames : List String :=
  ["HELP", "PING", "ECHO", "SET", "GET",
   "RPUSH", "LRANGE", "LPUSH", "LLEN", "LPOP", "BLPOP"]

/-- The reply `ExecuteCommand` sends for an unknown command name
(`"Unrecognized command '%s'!\r\n"`; `\x27` is the single-quote
character). -/
def unknownCommandReply (name : String) : String :=
  "Unrecognized command \x27" ++ name ++ "\x27!\r\n"

/-- The unknown-name path of `ExecuteCommand`: looks `Params[0]` up in
the table; when absent, sends `unknownCommandReply` on the response
channel and returns (the `err` flag of the reader is untouched, so the
loop continues).  `none` means the name was found and a handler ran. -/
def ExecuteCommandUnknown (params : List String) : Option String :=
  match params with
  | [] => none
  | name :: _ =>
    if commandNames.contains name then none
    else some (unknownCommandReply name)

/-! ## `LRANGE` (`respcommands/listcommands.go`)

`lrange.execute` parses both indices with `strconv.Atoi`, replies
`*0\r\n` when the key is absent from the list store, and otherwise
serializes `GetRange`'s result.  The list store installs deques through
`GetOrCreate`, hence with no expiry; its `Get` is modelled at instant
`now`.  The texts of the error replies (which embed usage strings and Go
error values) are abbreviated; no claim inspects them. -/

def lrangeExecute (params : List String)
    (lists : CMap String (Deque String)) (now : Nat) : String :=
  if params.length ≠ 4 then "-ERR LRANGE key, start, and stop!"
  else
    match goAtoi (params.getD 2 "") with
    | none => "-ERR Start index could not be converted to int!"
    | some startIndex =>
      match goAtoi (params.getD 3 "") with
      | none => "-ERR Stop index could not be converted to int!"
      | some stopIndex =>
        match CMap.Get lists (params.getD 1 "") now with
        | none => "*0\r\n"
        | some list => SerializeRespArray (Deque.GetRange startIndex stopIndex list)

/-! ## Helper lemmas -/

/-- A reply built by `HandleError` with `terminate = true` carries the
terminate marker the writer looks for. -/
theorem writerTerminates_errterm (msg : String) :
    writerTerminates ("-ERRTERM " ++ msg ++ "\r\n") = true := by
  have h9 : "-ERRTERM ".data = "-ERRTERM".data ++ [' '] := rfl
  simp only [writerTerminates, hasPrefixGo, String.data_append, h9,
    List.append_assoc, List.isPrefixOf_iff_prefix]
  exact List.prefix_append _ _

/-- `Set` with a positive TTL installs the value with a fresh timer
identity and expiry `now + ttl`. -/
theorem CMap.Set_entries_self {K V : Type} [DecidableEq K] (m : CMap K V)
    (key : K) (v : V) (ttl now : Nat) (h : 0 < ttl) :
    (CMap.Set m key v ttl now).entries key
      = some ⟨v, some m.nextTimer, some (now + ttl)⟩ := by
  unfold CMap.Set
  rw [if_pos h]
  simp

/-- `Set` with a positive TTL consumes one fresh timer identity. -/
theorem CMap.Set_nextTimer_pos {K V : Type} [DecidableEq K] (m : CMap K V)
    (key : K) (v : V) (ttl now : Nat) (h : 0 < ttl) :
    (CMap.Set m key v ttl now).nextTimer = m.nextTimer + 1 := by
  unfold CMap.Set
  rw [if_pos h]

/-- A firing timer whose identity differs from the entry's registered
timer leaves the map untouched. -/
theorem CMap.fireTimer_noop {K V : Type} [DecidableEq K] (m : CMap K V)
    (key : K) (tid : Nat) (e : MapEntry V) (h : m.entries key = some e)
    (hne : e.timer ≠ some tid) : CMap.fireTimer m key tid = m := by
  unfold CMap.fireTimer
  rw [h]
  simp [hne]

/-- A firing timer matching the entry's registered timer deletes the
entry (and leaves the fresh-identity counter alone). -/
theorem CMap.fireTimer_deleted {K V : Type} [DecidableEq K] (m : CMap K V)
    (key : K) (tid : Nat) (e : MapEntry V) (h : m.entries key = some e)
    (ht : e.timer = some tid) :
    (CMap.fireTimer m key tid).entries key = none ∧
    (CMap.fireTimer m key tid).nextTimer = m.nextTimer := by
  unfold CMap.fireTimer
  rw [h]
  simp [ht]

/-- `Get` on an unexpired entry returns its data. -/
theorem CMap.Get_entry {K V : Type} [DecidableEq K] (m : CMap K V)
    (key : K) (now : Nat) (e : MapEntry V) (h : m.entries key = some e)
    (hexp : CMap.entryExpired e now = false) :
    CMap.Get m key now = some e.data := by
  unfold CMap.Get
  rw [h]
  simp [hexp]

/-- The unknown-command reply does not begin with the RESP error
marker `-`. -/
theorem unknownReply_not_errShaped (name : String) :
    hasPrefixGo (unknownCommandReply name) "-" = false := by
  have h1 : "Unrecognized command \x27".data
      = 'U' :: "nrecognized command \x27".data := rfl
  simp [unknownCommandReply, hasPrefixGo, String.data_append, h1,
    List.isPrefixOf]

/-! ## Theorems for the claims -/

/-- C10: for every integer `n ≤ 0`, `PopFront(n)` returns the empty
sequence and leaves the whole deque state unchanged; the operation is
total for any integer `n`. -/
theorem PopFront_nonpos_noop {α : Type} [Inhabited α] (q : Deque α)
    (n : Int) (h : n ≤ 0) : Deque.PopFront n q = ([], q) := by
  have h0 : (0 : Int) ≤ (q.count : Int) := Int.ofNat_nonneg _
  have h1 : max 0 (min n ((q.count : Nat) : Int)) = 0 := by omega
  unfold Deque.PopFront Deque.popFrontNoLock
  rw [h1]
  rfl

/-- Witness for C10 at the concrete input `n = -1` on a fresh deque. -/
theorem PopFront_nonpos_noop_witness :
    Deque.PopFront (-1) (Deque.NewConcurrentDeque (α := String))
      = ([], Deque.NewConcurrentDeque) :=
  PopFront_nonpos_noop _ _ (by decide)

/-- C1 (failing-input evaluation): on a deque with one pending waiter,
`PushBack("hello")` hands `["hello"]` to the waiter AND stores the value
in the ring buffer (`count` becomes 1 and `GetRange` shows it), and the
returned length counts the handed-off value; the claim's requirement
that a handed-off value not enter the ring buffer is violated. -/
theorem PushBack_handoff_also_buffers :
    (Deque.PushBack ["hello"]
        (Deque.PopFrontAsync 5 (Deque.NewConcurrentDeque (α := String))).1).2.2
        = [(0, ["hello"])] ∧
    (Deque.PushBack ["hello"]
        (Deque.PopFrontAsync 5 (Deque.NewConcurrentDeque (α := String))).1).2.1.count
        = 1 ∧
    Deque.GetRange 0 (-1)
        (Deque.PushBack ["hello"]
          (Deque.PopFrontAsync 5 (Deque.NewConcurrentDeque (α := String))).1).2.1
        = some ["hello"] ∧
    (Deque.PushBack ["hello"]
        (Deque.PopFrontAsync 5 (Deque.NewConcurrentDeque (α := String))).1).1
        = 1 := by
  refine ⟨rfl, rfl, by decide, rfl⟩

/-- C4 (failing-input evaluation): after two `PopFrontAsync` calls on an
empty deque followed by `PushBack` of one value, the reachable state has
`count = 1 > 0` while one waiter is still pending, violating the claimed
invariant `count > 0 ⇒ waiter queue empty`. -/
theorem countPos_with_pending_waiter :
    (Deque.PushBack ["x"]
        (Deque.PopFrontAsync 5
          (Deque.PopFrontAsync 5 (Deque.NewConcurrentDeque (α := String))).1).1).2.1.count
        = 1 ∧
    (Deque.PushBack ["x"]
        (Deque.PopFrontAsync 5
          (Deque.PopFrontAsync 5 (Deque.NewConcurrentDeque (α := String))).1).1).2.1.waiters
        = [1] := by
  refine ⟨rfl, by decide⟩

/-- C2 (failing-input evaluation): `PopFrontAsync` never reads its
`timeout` argument — its result is identical for every timeout — and on
an empty deque it enqueues a waiter for which no expiry transition
exists anywhere in the deque's operations, so a `BLPOP` deadline can
never fire. -/
theorem PopFrontAsync_ignores_timeout :
    (∀ (q : Deque String) (t t' : Int),
        Deque.PopFrontAsync t q = Deque.PopFrontAsync t' q) ∧
    (Deque.PopFrontAsync 1 (Deque.NewConcurrentDeque (α := String))).2
        = Deque.PopAsyncResult.enqueued 0 ∧
    (Deque.PopFrontAsync 1 (Deque.NewConcurrentDeque (α := String))).1.waiters
        = [0] :=
  ⟨fun _ _ _ => rfl, rfl, rfl⟩

/-- C7 (counterexample): the reply `ExecuteCommand` sends for the
unknown command name `FOO` is `Unrecognized command 'FOO'!\r\n`, which
does not have the error shape `-X\r\n` (it does not begin with `-`), so
the claim as stated is false. -/
theorem unknownCommand_reply_not_error_shape :
    ExecuteCommandUnknown ["FOO"] = some (unknownCommandReply "FOO") ∧
    hasPrefixGo (unknownCommandReply "FOO") "-" = false := by
  refine ⟨rfl, by decide⟩

/-- C7 (amended): for every dispatched command whose name is not in the
command table, the server sends the single reply
`Unrecognized command '<name>'!\r\n` on the connection's response
channel; the reply is plain text without the `-` error marker and
without the terminate marker, and the connection continues processing
subsequent commands. -/
theorem unknownCommand_plain_reply_continues (name : String)
    (rest : List String) (h : commandNames.contains name = false) :
    ExecuteCommandUnknown (name :: rest) = some (unknownCommandReply name) ∧
    hasPrefixGo (unknownCommandReply name) "-" = false ∧
    writerTerminates (unknownCommandReply name) = false := by
  refine ⟨?_, unknownReply_not_errShaped name, ?_⟩
  · have h' : name ∉ commandNames := by simpa using h
    simp [ExecuteCommandUnknown, h']
  · have h1 : "Unrecognized command \x27".data
        = 'U' :: "nrecognized command \x27".data := rfl
    simp [writerTerminates, unknownCommandReply, hasPrefixGo,
      String.data_append, h1, List.isPrefixOf]

/-- Witness for the amended C7 at the concrete name `FOO`. -/
theorem unknownCommand_plain_reply_continues_witness :
    ExecuteCommandUnknown ["FOO", "bar"] = some (unknownCommandReply "FOO") ∧
    hasPrefixGo (unknownCommandReply "FOO") "-" = false ∧
    writerTerminates (unknownCommandReply "FOO") = false :=
  unknownCommand_plain_reply_continues "FOO" ["bar"] (by decide)

/-- C6 (counterexample): two command-position lines covered by the claim
do not raise a fatal protocol error: the empty line makes `ParseArray`
return `nil` silently and `ReadWorker` exit cleanly with no error reply,
and the `+`-signed count line `*+1` is accepted (Go `Atoi` parses `+1`),
so no error reply carrying the terminate marker is emitted for either. -/
theorem parse_empty_or_plus_signed_no_error :
    ParseArray [""] = (none, none) ∧
    ReadWorkerStep [""] = ConnOutcome.cleanExit ∧
    ParseArray ["*+1", "$1", "k"] = (some ["k"], none) ∧
    ReadWorkerStep ["*+1", "$1", "k"] = ConnOutcome.dispatched ["k"] := by
  refine ⟨rfl, rfl, by decide, by decide⟩

/-- C6 (amended): for every NONEMPTY line read in command position that
does not begin with `*` followed by a string Go `Atoi` parses to a
non-negative integer (Atoi also accepts a redundant leading `+` sign,
so such counts are accepted rather than rejected), the parser raises a
fatal protocol error: exactly one error reply carrying the `-ERRTERM`
terminate marker is emitted and the connection is terminated; an empty
line instead makes the reader exit silently with no reply. -/
theorem badHeader_fatal_terminates (line : String) (rest : List String)
    (hne : line ≠ "")
    (hbad : hasPrefixGo line "*" = false ∨ goAtoi (line.drop 1) = none ∨
            ∃ k : Int, goAtoi (line.drop 1) = some k ∧ k < 0) :
    ∃ msg, ParseArray (line :: rest) = (none, some msg) ∧
      ReadWorkerStep (line :: rest)
        = ConnOutcome.terminated ("-ERRTERM " ++ msg ++ "\r\n") ∧
      writerTerminates ("-ERRTERM " ++ msg ++ "\r\n") = true := by
  by_cases hp : hasPrefixGo line "*" = true
  · rcases hbad with h | h | ⟨k, hk, hklt⟩
    · exact absurd hp (by simp [h])
    · have hPA : ParseArray (line :: rest)
          = (none, some "Could not extract array size!") := by
        simp [ParseArray, hne, hp, h]
      exact ⟨_, hPA, by simp [ReadWorkerStep, hPA], writerTerminates_errterm _⟩
    · have hPA : ParseArray (line :: rest)
          = (none, some "Array size cannot be negative") := by
        simp [ParseArray, hne, hp, hk, hklt]
      exact ⟨_, hPA, by simp [ReadWorkerStep, hPA], writerTerminates_errterm _⟩
  · have hp' : hasPrefixGo line "*" = false := by
      cases h : hasPrefixGo line "*" <;> simp_all
    have hPA : ParseArray (line :: rest)
        = (none, some "ParseArray called on non-array!") := by
      simp [ParseArray, hne, hp']
    exact ⟨_, hPA, by simp [ReadWorkerStep, hPA], writerTerminates_errterm _⟩

/-- Witness for the amended C6 at the concrete line `X` (no `*`). -/
theorem badHeader_fatal_terminates_witness :
    ∃ msg, ParseArray ["X"] = (none, some msg) ∧
      ReadWorkerStep ["X"]
        = ConnOutcome.terminated ("-ERRTERM " ++ msg ++ "\r\n") ∧
      writerTerminates ("-ERRTERM " ++ msg ++ "\r\n") = true :=
  badHeader_fatal_terminates "X" [] (by decide) (Or.inl (by decide))

/-- C9: `LRANGE` (with parseable indices) on a key whose deque exists
but holds zero elements replies with the nil array `*-1\r\n` —
`GetRange` returns the `nil` slice when `count == 0` and the serializer
maps `nil` to the nil array — whereas `LRANGE` on a missing key replies
with the empty array `*0\r\n`; the two wire replies differ. -/
theorem lrange_nil_vs_empty :
    (∀ (lists : CMap String (Deque String)) (now : Nat)
        (key s t : String) (si ti : Int) (q : Deque String),
        goAtoi s = some si → goAtoi t = some ti →
        CMap.Get lists key now = some q → q.count = 0 →
        lrangeExecute ["LRANGE", key, s, t] lists now = "*-1\r\n") ∧
    (∀ (lists : CMap String (Deque String)) (now : Nat)
        (key s t : String) (si ti : Int),
        goAtoi s = some si → goAtoi t = some ti →
        CMap.Get lists key now = none →
        lrangeExecute ["LRANGE", key, s, t] lists now = "*0\r\n") ∧
    ("*-1\r\n" : String) ≠ "*0\r\n" := by
  refine ⟨?_, ?_, by decide⟩
  · intro lists now key s t si ti q hs ht hget hcount
    simp [lrangeExecute, hs, ht, hget, SerializeRespArray, Deque.GetRange, hcount]
  · intro lists now key s t si ti hs ht hget
    simp [lrangeExecute, hs, ht, hget]

/-- Witness for C9: a store holding the empty deque at key `L` and
nothing at key `M`. -/
theorem lrange_nil_vs_empty_witness :
    lrangeExecute ["LRANGE", "L", "0", "-1"]
      ⟨fun k => if k = "L" then
          some ⟨Deque.NewConcurrentDeque, none, none⟩ else none, 0⟩ 0
      = "*-1\r\n" ∧
    lrangeExecute ["LRANGE", "M", "0", "-1"]
      ⟨fun k => if k = "L" then
          some ⟨Deque.NewConcurrentDeque, none, none⟩ else none, 0⟩ 0
      = "*0\r\n" :=
  ⟨lrange_nil_vs_empty.1 _ 0 "L" "0" "-1" 0 (-1) Deque.NewConcurrentDeque
      (by decide) (by decide) (by decide) (by decide),
   lrange_nil_vs_empty.2.1 _ 0 "M" "0" "-1" 0 (-1)
      (by decide) (by decide) (by decide)⟩

/-- C5: `GetOrCreate` on a hit (fast path at `now1` or re-check at
`now2`) returns the existing unexpired value without calling the
factory and without changing the map; when the key is still absent or
expired at the re-check, the factory is invoked exactly once (the
returned flag counts its invocations), its result is installed with no
expiry and no timer, and that result is returned. -/
theorem GetOrCreate_spec {K V : Type} [DecidableEq K] (m : CMap K V)
    (key : K) (f : Unit → V) (now1 now2 : Nat) :
    (∀ d, CMap.Get m key now1 = some d →
        CMap.GetOrCreate m key f now1 now2 = (d, m, false)) ∧
    (CMap.Get m key now1 = none → ∀ d, CMap.Get m key now2 = some d →
        CMap.GetOrCreate m key f now1 now2 = (d, m, false)) ∧
    (CMap.Get m key now1 = none → CMap.Get m key now2 = none →
        CMap.GetOrCreate m key f now1 now2 =
          (f (), { m with entries := fun k =>
              if k = key then some ⟨f (), none, none⟩ else m.entries k },
           true)) := by
  refine ⟨?_, ?_, ?_⟩
  · intro d h
    simp [CMap.GetOrCreate, h]
  · intro h1 d h2
    unfold CMap.GetOrCreate
    rw [h1]
    unfold CMap.Get at h2
    cases he : m.entries key with
    | none => rw [he] at h2; simp at h2
    | some e =>
      rw [he] at h2
      by_cases hex : CMap.entryExpired e now2
      · simp [hex] at h2
      · simp [hex] at h2
        simp [he, hex, h2]
  · intro h1 h2
    unfold CMap.GetOrCreate
    rw [h1]
    unfold CMap.Get at h2
    cases he : m.entries key with
    | none => simp [he]
    | some e =>
      rw [he] at h2
      by_cases hex : CMap.entryExpired e now2
      · simp [he, hex]
      · simp [hex] at h2

/-- Witness for C5: on the empty map the factory runs once and its
result is installed with no expiry. -/
theorem GetOrCreate_spec_witness :
    CMap.GetOrCreate (CMap.NewConcurrentMap String Nat) "k" (fun _ => 7) 0 0
      = (7,
         (⟨fun k => if k = "k" then some ⟨7, none, none⟩ else none, 0⟩ :
            CMap String Nat),
         true) :=
  (GetOrCreate_spec (CMap.NewConcurrentMap String Nat) "k"
      (fun _ => 7) 0 0).2.2 rfl rfl

/-- C3: after `set(k, w, ε)` (which registers timer `t1 = m.nextTimer`)
followed by `set(k, v, long)`, the deferred deletion of the first timer
is a no-op whether it fires after the second set or between the two
sets (in the latter case the second set rewrites the entry), because
the deferred action deletes only when the entry's still-registered
timer is the very timer that is firing; hence at no subsequent instant
up to the second expiry does `get(k)` observe absence caused by the
first timer. -/
theorem set_timer_identity {K V : Type} [DecidableEq K] (m : CMap K V)
    (key : K) (w v : V) (eps long now1 now2 : Nat)
    (heps : 0 < eps) (hlong : 0 < long) :
    CMap.fireTimer (CMap.Set (CMap.Set m key w eps now1) key v long now2)
        key m.nextTimer
      = CMap.Set (CMap.Set m key w eps now1) key v long now2 ∧
    CMap.fireTimer
        (CMap.Set (CMap.fireTimer (CMap.Set m key w eps now1) key m.nextTimer)
          key v long now2) key m.nextTimer
      = CMap.Set (CMap.fireTimer (CMap.Set m key w eps now1) key m.nextTimer)
          key v long now2 ∧
    (∀ now, now ≤ now2 + long →
      CMap.Get (CMap.Set (CMap.Set m key w eps now1) key v long now2) key now
        = some v) ∧
    (∀ now, now ≤ now2 + long →
      CMap.Get
        (CMap.Set (CMap.fireTimer (CMap.Set m key w eps now1) key m.nextTimer)
          key v long now2) key now
        = some v) := by
  have hm1 := CMap.Set_entries_self m key w eps now1 heps
  have hm1n := CMap.Set_nextTimer_pos m key w eps now1 heps
  have hm2 : (CMap.Set (CMap.Set m key w eps now1) key v long now2).entries key
      = some ⟨v, some (m.nextTimer + 1), some (now2 + long)⟩ := by
    rw [CMap.Set_entries_self _ _ _ _ _ hlong, hm1n]
  have hf1 := CMap.fireTimer_deleted (CMap.Set m key w eps now1) key
    m.nextTimer _ hm1 rfl
  have hm2' : (CMap.Set
        (CMap.fireTimer (CMap.Set m key w eps now1) key m.nextTimer)
        key v long now2).entries key
      = some ⟨v, some (m.nextTimer + 1), some (now2 + long)⟩ := by
    rw [CMap.Set_entries_self _ _ _ _ _ hlong, hf1.2, hm1n]
  have hexp : ∀ now, now ≤ now2 + long →
      CMap.entryExpired (⟨v, some (m.nextTimer + 1), some (now2 + long)⟩ :
        MapEntry V) now = false := by
    intro now hnow
    simp [CMap.entryExpired]
    omega
  refine ⟨?_, ?_, ?_, ?_⟩
  · exact CMap.fireTimer_noop _ _ _ _ hm2 (by simp)
  · exact CMap.fireTimer_noop _ _ _ _ hm2' (by simp)
  · intro now hnow
    exact CMap.Get_entry _ _ _ _ hm2 (hexp now hnow)
  · intro now hnow
    exact CMap.Get_entry _ _ _ _ hm2' (hexp now hnow)

/-- Witness for C3 at a concrete run: key `k`, short TTL 1 at instant 0,
long TTL 3600 at instant 1; the first timer's deferred deletion leaves
the state unchanged and a later `get` still sees the new value. -/
theorem set_timer_identity_witness :
    CMap.fireTimer
        (CMap.Set (CMap.Set (CMap.NewConcurrentMap String String)
          "k" "old" 1 0) "k" "new" 3600 1) "k" 0
      = CMap.Set (CMap.Set (CMap.NewConcurrentMap String String)
          "k" "old" 1 0) "k" "new" 3600 1 ∧
    CMap.Get (CMap.Set (CMap.Set (CMap.NewConcurrentMap String String)
          "k" "old" 1 0) "k" "new" 3600 1) "k" 2000
      = some "new" :=
  ⟨(set_timer_identity (CMap.NewConcurrentMap String String)
      "k" "old" "new" 1 3600 0 1 (by decide) (by decide)).1,
   (set_timer_identity (CMap.NewConcurrentMap String String)
      "k" "old" "new" 1 3600 0 1 (by decide) (by decide)).2.2.1 2000 (by decide)⟩


theorem growSize_ge (n target : Nat) (hn : 0 < n) :
    n ≤ Deque.growSize n target ∧ target ≤ Deque.growSize n target := by
  induction n, target using Deque.growSize.induct with
  | case1 target => omega
  | case2 n target h1 h2 =>
    unfold Deque.growSize
    simp [h1, h2]
  | case3 n target h1 h2 ih =>
    unfold Deque.growSize
    simp only [h1, if_false, h2]
    have := ih (by omega)
    omega

theorem growSize_pow2 (n target : Nat) (hp : ∃ k, n = 2 ^ k) :
    ∃ j, Deque.growSize n target = 2 ^ j := by
  induction n, target using Deque.growSize.induct with
  | case1 target =>
    obtain ⟨k, hk⟩ := hp
    exact absurd hk.symm (Nat.pos_iff_ne_zero.mp (Nat.pos_pow_of_pos k (by norm_num))).elim
  | case2 n target h1 h2 =>
    unfold Deque.growSize
    simp [h1, h2]
    exact hp
  | case3 n target h1 h2 ih =>
    unfold Deque.growSize
    simp only [h1, if_false, h2]
    obtain ⟨k, hk⟩ := hp
    exact (by simpa [h2] using ih ⟨k + 1, by rw [hk]; ring⟩)

theorem length_foldl_set {α : Type} (is : List Nat) (g : Nat → α) (b : List α) :
    (is.foldl (fun b i => b.set i (g i)) b).length = b.length := by
  induction is generalizing b with
  | nil => rfl
  | cons i is ih => simp [List.foldl_cons, ih, List.length_set]

theorem resize_spec {α : Type} [Inhabited α] (target : Nat) (q : Deque α)
    (hinv : DequeInv q) :
    DequeInv (Deque.resizeIfNecessaryNoLock target q) ∧
    (Deque.resizeIfNecessaryNoLock target q).count = q.count ∧
    (Deque.resizeIfNecessaryNoLock target q).waiters = q.waiters ∧
    target ≤ (Deque.resizeIfNecessaryNoLock target q).buf.length := by
  obtain ⟨⟨k, hk⟩, h16, hcnt, hhead, htail⟩ := hinv
  by_cases h : target ≤ q.buf.length
  · unfold Deque.resizeIfNecessaryNoLock
    rw [if_pos h]
    exact ⟨⟨⟨k, hk⟩, h16, hcnt, hhead, htail⟩, rfl, rfl, h⟩
  · have hmax : max q.buf.length 1 = q.buf.length := by omega
    have hge := growSize_ge q.buf.length target (by omega)
    have hpow := growSize_pow2 q.buf.length target ⟨k, hk⟩
    unfold Deque.resizeIfNecessaryNoLock
    rw [if_neg h, hmax]
    simp only []
    refine ⟨⟨?_, ?_, ?_, ?_, ?_⟩, ?_, ?_, ?_⟩
    · simpa [length_foldl_set] using hpow
    · simp [length_foldl_set]; omega
    · simp [length_foldl_set]; omega
    · simp [length_foldl_set]; omega
    · simp [length_foldl_set]
      rw [Nat.mod_eq_of_lt (by omega)]
    · trivial
    · trivial
    · simp [length_foldl_set]; omega

theorem pushLoopBack_spec {α : Type} (vs : List α) :
    ∀ q : Deque α, q.tail = (q.head + q.count) % q.buf.length →
    (Deque.pushLoopBack vs q).buf.length = q.buf.length ∧
    (Deque.pushLoopBack vs q).head = q.head ∧
    (Deque.pushLoopBack vs q).count = q.count + vs.length ∧
    (Deque.pushLoopBack vs q).waiters = q.waiters ∧
    (Deque.pushLoopBack vs q).tail
      = ((Deque.pushLoopBack vs q).head + (Deque.pushLoopBack vs q).count)
          % q.buf.length := by
  induction vs with
  | nil =>
    intro q ht
    exact ⟨rfl, rfl, rfl, rfl, ht⟩
  | cons v vs ih =>
    intro q ht
    simp only [Deque.pushLoopBack]
    obtain ⟨l1, l2, l3, l4, l5⟩ := ih
      { q with buf := q.buf.set q.tail v,
               tail := (q.tail + 1) % q.buf.length,
               count := q.count + 1 }
      (by simp only [List.length_set]
          rw [ht, Nat.mod_add_mod, Nat.add_assoc])
    refine ⟨?_, ?_, ?_, ?_, ?_⟩
    · rw [l1]; simp [List.length_set]
    · rw [l2]
    · rw [l3]; simp; omega
    · rw [l4]
    · rw [l5]; simp [List.length_set]

theorem pushLoopFront_spec {α : Type} (vs : List α) :
    ∀ q : Deque α, 0 < q.buf.length → q.head < q.buf.length →
    q.tail = (q.head + q.count) % q.buf.length →
    (Deque.pushLoopFront vs q).buf.length = q.buf.length ∧
    (Deque.pushLoopFront vs q).head < q.buf.length ∧
    (Deque.pushLoopFront vs q).count = q.count + vs.length ∧
    (Deque.pushLoopFront vs q).waiters = q.waiters ∧
    (Deque.pushLoopFront vs q).tail
      = ((Deque.pushLoopFront vs q).head + (Deque.pushLoopFront vs q).count)
          % q.buf.length := by
  induction vs with
  | nil =>
    intro q hpos hh ht
    exact ⟨rfl, hh, rfl, rfl, ht⟩
  | cons v vs ih =>
    intro q hpos hh ht
    simp only [Deque.pushLoopFront]
    obtain ⟨l1, l2, l3, l4, l5⟩ := ih
      { q with buf := q.buf.set ((q.head + q.buf.length - 1) % q.buf.length) v,
               head := (q.head + q.buf.length - 1) % q.buf.length,
               count := q.count + 1 }
      (by simpa [List.length_set] using hpos)
      (by simp only [List.length_set]
          exact Nat.mod_lt _ hpos)
      (by simp only [List.length_set]
          rw [Nat.mod_add_mod]
          have e : q.head + q.buf.length - 1 + (q.count + 1)
              = q.head + q.count + q.buf.length := by omega
          rw [e, Nat.add_mod_right]
          exact ht)
    refine ⟨?_, ?_, ?_, ?_, ?_⟩
    · rw [l1]; simp [List.length_set]
    · simpa [List.length_set] using l2
    · rw [l3]; simp; omega
    · rw [l4]
    · rw [l5]; simp [List.length_set]

theorem popLoop_spec {α : Type} [Inhabited α] (n : Nat) :
    ∀ q : Deque α, n ≤ q.count → 0 < q.buf.length →
    q.head < q.buf.length →
    q.tail = (q.head + q.count) % q.buf.length →
    (Deque.popLoop n q).2.buf.length = q.buf.length ∧
    (Deque.popLoop n q).2.head < q.buf.length ∧
    (Deque.popLoop n q).2.count = q.count - n ∧
    (Deque.popLoop n q).2.waiters = q.waiters ∧
    (Deque.popLoop n q).2.tail
      = ((Deque.popLoop n q).2.head + (Deque.popLoop n q).2.count)
          % q.buf.length := by
  induction n with
  | zero =>
    intro q hn hpos hh ht
    exact ⟨rfl, hh, rfl, rfl, ht⟩
  | succ n ih =>
    intro q hn hpos hh ht
    simp only [Deque.popLoop]
    obtain ⟨l1, l2, l3, l4, l5⟩ := ih
      { q with buf := q.buf.set q.head default,
               head := (q.head + 1) % q.buf.length,
               count := q.count - 1 }
      (by simp; omega)
      (by simpa [List.length_set] using hpos)
      (by simp only [List.length_set]
          exact Nat.mod_lt _ hpos)
      (by simp only [List.length_set]
          rw [Nat.mod_add_mod]
          have e : q.head + 1 + (q.count - 1) = q.head + q.count := by omega
          rw [e]
          exact ht)
    refine ⟨?_, ?_, ?_, ?_, ?_⟩
    · rw [l1]; simp [List.length_set]
    · simpa [List.length_set] using l2
    · rw [l3]; simp; omega
    · rw [l4]
    · rw [l5]; simp [List.length_set]

theorem PushBack_inv {α : Type} [Inhabited α] (vs : List α) (q : Deque α)
    (h : DequeInv q) : DequeInv (Deque.PushBack vs q).2.1 := by
  obtain ⟨hrinv, hrc, hrw, hrt⟩ := resize_spec (q.count + vs.length) q h
  obtain ⟨⟨k, hk⟩, h16, hcnt, hhead, htail⟩ := hrinv
  obtain ⟨l1, l2, l3, l4, l5⟩ := pushLoopBack_spec vs _ htail
  have hq2 : DequeInv (Deque.pushLoopBack vs
      (Deque.resizeIfNecessaryNoLock (q.count + vs.length) q)) := by
    refine ⟨⟨k, ?_⟩, ?_, ?_, ?_, ?_⟩
    · rw [l1, hk]
    · rw [l1]; exact h16
    · rw [l3, l1, hrc]; exact hrt
    · rw [l2, l1]; exact hhead
    · rw [l5, l1]
  exact hq2

theorem PushFront_inv {α : Type} [Inhabited α] (vs : List α) (q : Deque α)
    (h : DequeInv q) : DequeInv (Deque.PushFront vs q).2.1 := by
  obtain ⟨hrinv, hrc, hrw, hrt⟩ := resize_spec (q.count + vs.length) q h
  obtain ⟨⟨k, hk⟩, h16, hcnt, hhead, htail⟩ := hrinv
  obtain ⟨l1, l2, l3, l4, l5⟩ := pushLoopFront_spec vs _ (by omega) hhead htail
  have hq2 : DequeInv (Deque.pushLoopFront vs
      (Deque.resizeIfNecessaryNoLock (q.count + vs.length) q)) := by
    refine ⟨⟨k, ?_⟩, ?_, ?_, ?_, ?_⟩
    · rw [l1, hk]
    · rw [l1]; exact h16
    · rw [l3, l1, hrc]; exact hrt
    · rw [l1]; exact l2
    · rw [l5, l1]
  exact hq2

theorem PopFront_inv {α : Type} [Inhabited α] (n : Int) (q : Deque α)
    (h : DequeInv q) : DequeInv (Deque.PopFront n q).2 := by
  obtain ⟨⟨k, hk⟩, h16, hcnt, hhead, htail⟩ := h
  have hn : (max 0 (min n ((q.count : Nat) : Int))).toNat ≤ q.count := by omega
  obtain ⟨l1, l2, l3, l4, l5⟩ := popLoop_spec _ q hn (by omega) hhead htail
  have hq2 : DequeInv (Deque.popLoop
      (max 0 (min n ((q.count : Nat) : Int))).toNat q).2 := by
    refine ⟨⟨k, ?_⟩, ?_, ?_, ?_, ?_⟩
    · rw [l1, hk]
    · rw [l1]; exact h16
    · rw [l3, l1]; omega
    · rw [l1]; exact l2
    · rw [l5, l1]
  exact hq2

theorem applyRingOp_inv {α : Type} [Inhabited α] (op : RingOp α) (q : Deque α)
    (h : DequeInv q) : DequeInv (applyRingOp op q) := by
  cases op with
  | pushBack vs => exact PushBack_inv vs q h
  | pushFront vs => exact PushFront_inv vs q h
  | popFront n => exact PopFront_inv n q h

theorem runRingOps_inv {α : Type} [Inhabited α] (ops : List (RingOp α)) :
    ∀ q : Deque α, DequeInv q → DequeInv (runRingOps ops q) := by
  induction ops with
  | nil => intro q h; exact h
  | cons op ops ih =>
    intro q h
    simp only [runRingOps, List.foldl_cons]
    exact ih _ (applyRingOp_inv op q h)

theorem DequeInv_new {α : Type} [Inhabited α] :
    DequeInv (Deque.NewConcurrentDeque (α := α)) := by
  refine ⟨⟨4, ?_⟩, ?_, ?_, ?_, ?_⟩ <;>
    simp [Deque.NewConcurrentDeque]

/-- C8: for every deque state reachable from `NewConcurrentDeque` by any
sequence of `PushBack`, `PushFront`, and `PopFront` operations, the
buffer capacity is a power of two of at least 16, `count ≤ capacity`,
and `tail == (head + count) mod capacity`. -/
theorem ring_invariant_reachable {α : Type} [Inhabited α]
    (ops : List (RingOp α)) :
    (∃ k, (runRingOps ops Deque.NewConcurrentDeque).buf.length = 2 ^ k) ∧
    16 ≤ (runRingOps ops Deque.NewConcurrentDeque).buf.length ∧
    (runRingOps ops Deque.NewConcurrentDeque).count
      ≤ (runRingOps ops Deque.NewConcurrentDeque).buf.length ∧
    (runRingOps ops Deque.NewConcurrentDeque).tail
      = ((runRingOps ops Deque.NewConcurrentDeque).head
          + (runRingOps ops Deque.NewConcurrentDeque).count)
        % (runRingOps ops Deque.NewConcurrentDeque).buf.length := by
  obtain ⟨h1, h2, h3, _, h5⟩ := runRingOps_inv ops Deque.NewConcurrentDeque DequeInv_new
  exact ⟨h1, h2, h3, h5⟩


end RedisGo
